import Mathlib

/-!
Verification of the Meta Ads Compliance Scanner backend (src/main.py).

The development shallowly embeds the scan pipeline of the FastAPI service:

* `PyVal` models the Python values that can result from `json.loads` and that
  flow through `analyze_with_ai` / `scan_ad` (JSON numbers are modelled as
  integers; floating-point replies are outside the model).
* `reprPy` / `strPy` model Python's `repr()` / `str()` on those values; they are
  used by `scan_ad`, which stores `str(analysis["violations"])` and
  `str(analysis["recommendations"])` in the `violations` / `recommendations`
  text columns (src/main.py lines 320-321).
* `literalEval` models `ast.literal_eval` as used by `get_scan_details`
  (src/main.py line 380-381) on the fragment of Python literals reachable from
  the stored texts: `None`/`True`/`False`, decimal integers, quoted strings
  with the escapes `repr` emits, lists and dicts with string keys.
* `json_loads` models `json.loads` (src/main.py line 249) on the corresponding
  JSON fragment: `null`/`true`/`false`, decimal integers, double-quoted
  strings, arrays, and objects with last-occurrence-wins duplicate keys.
* `extractCandidate` models the candidate-payload selection of
  `analyze_with_ai` (src/main.py lines 237-247): the two `re.search` calls for
  a ```` ```json ```` fenced block and for the greedy `first-brace .. last-brace`
  span, with the raw text as the final fallback.
* `scan_ad`, `get_scan_history`, `get_scan_details`, `scan_endpoint` model the
  HTTP handlers over an in-memory model `DB` of the `scan_results` table.

Characters that are awkward to quote are named constants (`lb`, `rb`, `sq`,
`dq`, `bs`); literal braces inside embedded test strings are written with the
`\x7b` / `\x7d` escapes.
-/

namespace MetaScanner

/-- Shorthand: the character list of a string literal. -/
def cs (s : String) : List Char := s.toList

/-- The character `{` (code 123). -/
def lb : Char := Char.ofNat 123

/-- The character `}` (code 125). -/
def rb : Char := Char.ofNat 125

/-- The single-quote character `'` (code 39). -/
def sq : Char := Char.ofNat 39

/-- The double-quote character `"` (code 34). -/
def dq : Char := Char.ofNat 34

/-- The backslash character (code 92). -/
def bs : Char := Char.ofNat 92

/-- Python values reachable from `json.loads` output and the degraded fallback
dictionary of `analyze_with_ai`: `None`, booleans, integers, strings, lists and
string-keyed dicts. JSON floats are outside the model. -/
inductive PyVal where
  | none_ : PyVal
  | bool : Bool → PyVal
  | int : Int → PyVal
  | str : List Char → PyVal
  | list : List PyVal → PyVal
  | dict : List (List Char × PyVal) → PyVal

/-- Decimal digits of a natural number, most significant first, as characters
(the digit production shared by Python's `repr` of `int` and its parsers). -/
def natDigits (n : Nat) : List Char :=
  if h : n < 10 then [Char.ofNat (48 + n)]
  else natDigits (n / 10) ++ [Char.ofNat (48 + n % 10)]
decreasing_by exact Nat.div_lt_self (by omega) (by omega)

/-- Python `repr` of an integer: optional minus sign followed by the decimal
digits. -/
def intRepr (n : Int) : List Char :=
  if n < 0 then '-' :: natDigits (-n).toNat else natDigits n.toNat

/-- Digit test on a character (codes 48-57), as used by the number lexers. -/
def isDig (c : Char) : Bool :=
  decide (48 ≤ c.toNat) && decide (c.toNat ≤ 57)

/-- Whitespace test (space, tab, newline, carriage return): the whitespace
skipped by `json.loads` and tolerated between Python literal tokens. -/
def isWs (c : Char) : Bool :=
  decide (c.toNat = 32) || decide (c.toNat = 9) ||
    decide (c.toNat = 10) || decide (c.toNat = 13)

/-- Skip leading whitespace. -/
def skipWs : List Char → List Char
  | [] => []
  | c :: t => if isWs c then skipWs t else c :: t

/-- Lowercase hex digit for a value below 16, as emitted by Python `repr` in
`\xNN` escapes. -/
def hexDig (n : Nat) : Char :=
  Char.ofNat (if n < 10 then 48 + n else 87 + n)

/-- Value of a hex digit character (accepting `0-9`, `a-f`, `A-F`). -/
def hexVal (c : Char) : Option Nat :=
  if isDig c then some (c.toNat - 48)
  else if decide (97 ≤ c.toNat) && decide (c.toNat ≤ 102) then some (c.toNat - 87)
  else if decide (65 ≤ c.toNat) && decide (c.toNat ≤ 70) then some (c.toNat - 55)
  else none

/-- Python `repr` escaping of one character of a string quoted with `q`:
backslash and the quote are backslash-escaped, newline / carriage return / tab
become `\n` / `\r` / `\t`, other control characters (and DEL) become `\xNN`,
and every other character is emitted verbatim. -/
def escChar (q c : Char) : List Char :=
  if c == bs then [bs, bs]
  else if c == q then [bs, q]
  else if c == '\n' then [bs, 'n']
  else if c == '\r' then [bs, 'r']
  else if c == '\t' then [bs, 't']
  else if decide (c.toNat < 32) || decide (c.toNat = 127) then
    [bs, 'x', hexDig (c.toNat / 16), hexDig (c.toNat % 16)]
  else [c]

/-- Escaped body of a string under quote `q`. -/
def escBody (q : Char) (s : List Char) : List Char :=
  (s.map (escChar q)).flatten

/-- Python `repr` of a string: single-quoted, except double-quoted when the
string contains a single quote but no double quote. -/
def reprOfStr (s : List Char) : List Char :=
  let q := if s.contains sq && !(s.contains dq) then dq else sq
  q :: (escBody q s ++ [q])

mutual

/-- Python `repr()` on `PyVal` (also `str()` on every non-string value):
`None`/`True`/`False`, decimal integers, quoted strings, `[x, y]` lists and
`{k: v}` dicts with `", "` separators, exactly as CPython prints them. -/
def reprPy : PyVal → List Char
  | .none_ => cs "None"
  | .bool true => cs "True"
  | .bool false => cs "False"
  | .int n => intRepr n
  | .str s => reprOfStr s
  | .list xs => '[' :: (reprItems xs ++ [']'])
  | .dict fs => lb :: (reprEntries fs ++ [rb])

/-- Comma-space separated `repr`s of list elements. -/
def reprItems : List PyVal → List Char
  | [] => []
  | [x] => reprPy x
  | x :: y :: t => reprPy x ++ (',' :: ' ' :: reprItems (y :: t))

/-- Comma-space separated `repr(key): repr(value)` dict entries. -/
def reprEntries : List (List Char × PyVal) → List Char
  | [] => []
  | [(k, v)] => reprOfStr k ++ (':' :: ' ' :: reprPy v)
  | (k, v) :: e :: t =>
    reprOfStr k ++ (':' :: ' ' :: reprPy v) ++ (',' :: ' ' :: reprEntries (e :: t))

end

/-- Python `str()`: the identity on strings, `repr` on everything else. This is
what `scan_ad` applies to `analysis["violations"]` and
`analysis["recommendations"]` before storing them (src/main.py 320-321). -/
def strPy : PyVal → List Char
  | .str s => s
  | .none_ => reprPy .none_
  | .bool b => reprPy (.bool b)
  | .int n => reprPy (.int n)
  | .list xs => reprPy (.list xs)
  | .dict fs => reprPy (.dict fs)

mutual

/-- Fuel sufficient for `parseVal` to consume the printed form of a value. -/
def pvFuel : PyVal → Nat
  | .list xs => 1 + itemsFuel xs
  | .dict fs => 1 + entriesFuel fs
  | _ => 1

def itemsFuel : List PyVal → Nat
  | [] => 0
  | x :: t => 1 + pvFuel x + itemsFuel t

def entriesFuel : List (List Char × PyVal) → Nat
  | [] => 0
  | (_, v) :: t => 1 + pvFuel v + entriesFuel t

end

/-- Body of a Python string literal quoted with `q`, returning the decoded
characters and the text after the closing quote. Handles the escapes `repr`
can emit (`\\`, `\'`, `\"`, `\n`, `\r`, `\t`, `\xNN`); raw newlines are
rejected, as in a single-line Python literal. -/
def parseStrBody (q : Char) : List Char → Option (List Char × List Char)
  | [] => none
  | c :: t =>
    if c == q then some ([], t)
    else if c == bs then
      match t with
      | [] => none
      | e :: t2 =>
        if e == bs then (parseStrBody q t2).map (fun p => (bs :: p.1, p.2))
        else if e == sq then (parseStrBody q t2).map (fun p => (sq :: p.1, p.2))
        else if e == dq then (parseStrBody q t2).map (fun p => (dq :: p.1, p.2))
        else if e == 'n' then (parseStrBody q t2).map (fun p => ('\n' :: p.1, p.2))
        else if e == 'r' then (parseStrBody q t2).map (fun p => ('\r' :: p.1, p.2))
        else if e == 't' then (parseStrBody q t2).map (fun p => ('\t' :: p.1, p.2))
        else if e == 'x' then
          match t2 with
          | h1 :: h2 :: t3 =>
            match hexVal h1, hexVal h2 with
            | some a, some b =>
              (parseStrBody q t3).map (fun p => (Char.ofNat (16 * a + b) :: p.1, p.2))
            | _, _ => none
          | _ => none
        else none
    else if c == '\n' || c == '\r' then none
    else (parseStrBody q t).map (fun p => (c :: p.1, p.2))

/-- Accumulating decimal-digit lexer: consumes the longest digit run. -/
def parseDigits (acc : Nat) : List Char → Nat × List Char
  | [] => (acc, [])
  | c :: t =>
    if isDig c then parseDigits (acc * 10 + (c.toNat - 48)) t else (acc, c :: t)

/-- Decimal natural-number lexer: requires at least one digit. -/
def parseNat0 : List Char → Option (Nat × List Char)
  | [] => none
  | c :: t => if isDig c then some (parseDigits 0 (c :: t)) else none

mutual

/-- Recursive-descent evaluator for the Python literal fragment reachable from
`repr` output, indexed by fuel: `None`/`True`/`False`, signed decimal
integers, quoted strings, lists and string-keyed dicts. -/
def parseVal : Nat → List Char → Option (PyVal × List Char)
  | 0, _ => none
  | f + 1, s =>
    match skipWs s with
    | [] => none
    | c :: r =>
      if c == 'N' then
        match r with
        | 'o' :: 'n' :: 'e' :: r2 => some (.none_, r2)
        | _ => none
      else if c == 'T' then
        match r with
        | 'r' :: 'u' :: 'e' :: r2 => some (.bool true, r2)
        | _ => none
      else if c == 'F' then
        match r with
        | 'a' :: 'l' :: 's' :: 'e' :: r2 => some (.bool false, r2)
        | _ => none
      else if c == '-' then
        match parseNat0 r with
        | some (n, r2) => some (.int (-(n : Int)), r2)
        | none => none
      else if isDig c then
        match parseNat0 (c :: r) with
        | some (n, r2) => some (.int (n : Int), r2)
        | none => none
      else if c == sq || c == dq then
        (parseStrBody c r).map (fun p => (.str p.1, p.2))
      else if c == '[' then
        match skipWs r with
        | [] => none
        | d :: r2 =>
          if d == ']' then some (.list [], r2)
          else (parseItems f (d :: r2)).map (fun p => (.list p.1, p.2))
      else if c == lb then
        match skipWs r with
        | [] => none
        | d :: r2 =>
          if d == rb then some (.dict [], r2)
          else (parseEntries f (d :: r2)).map (fun p => (.dict p.1, p.2))
      else none

/-- Elements of a non-empty list literal up to and including the closing `]`. -/
def parseItems : Nat → List Char → Option (List PyVal × List Char)
  | 0, _ => none
  | f + 1, s =>
    match parseVal f s with
    | none => none
    | some (v, r) =>
      match skipWs r with
      | [] => none
      | c :: r2 =>
        if c == ']' then some ([v], r2)
        else if c == ',' then
          match parseItems f r2 with
          | some (vs, r3) => some (v :: vs, r3)
          | none => none
        else none

/-- Entries of a non-empty dict literal up to and including the closing `}`. -/
def parseEntries : Nat → List Char → Option (List (List Char × PyVal) × List Char)
  | 0, _ => none
  | f + 1, s =>
    match skipWs s with
    | [] => none
    | c :: r =>
      if c == sq || c == dq then
        match parseStrBody c r with
        | none => none
        | some (k, r2) =>
          match skipWs r2 with
          | ':' :: r3 =>
            match parseVal f r3 with
            | none => none
            | some (v, r4) =>
              match skipWs r4 with
              | [] => none
              | c2 :: r5 =>
                if c2 == rb then some ([(k, v)], r5)
                else if c2 == ',' then
                  match parseEntries f r5 with
                  | some (es, r6) => some ((k, v) :: es, r6)
                  | none => none
                else none
          | _ => none
      else none

end

/-- Model of `ast.literal_eval` (src/main.py 380-381) on the literal fragment
produced by `str()` of pipeline values: parse one literal and require that only
whitespace remains. `none` models the `ValueError`/`SyntaxError` raised on any
other input. -/
def literalEval (s : List Char) : Option PyVal :=
  match parseVal (s.length + 1) s with
  | some (v, r) => if (skipWs r).isEmpty then some v else none
  | none => none

/-- Replace the value of `k` if present (keeping its position), else append:
how a CPython dict built left-to-right treats duplicate keys. -/
def dictInsert (fs : List (List Char × PyVal)) (k : List Char) (v : PyVal) :
    List (List Char × PyVal) :=
  match fs with
  | [] => [(k, v)]
  | (k0, v0) :: t => if k0 == k then (k0, v) :: t else (k0, v0) :: dictInsert t k v

/-- Left fold of `dictInsert` over parsed object entries. -/
def dictOfEntries (raw : List (List Char × PyVal)) : List (List Char × PyVal) :=
  raw.foldl (fun acc e => dictInsert acc e.1 e.2) []

/-- Body of a JSON string after the opening `"`: standard JSON escapes
(`\"`, `\\`, `\/`, `\b`, `\f`, `\n`, `\r`, `\t`, `\uXXXX` without surrogate
pairing), with raw control characters rejected as in strict `json.loads`. -/
def jparseStrBody : List Char → Option (List Char × List Char)
  | [] => none
  | c :: t =>
    if c == dq then some ([], t)
    else if c == bs then
      match t with
      | [] => none
      | e :: t2 =>
        if e == dq then (jparseStrBody t2).map (fun p => (dq :: p.1, p.2))
        else if e == bs then (jparseStrBody t2).map (fun p => (bs :: p.1, p.2))
        else if e == '/' then (jparseStrBody t2).map (fun p => ('/' :: p.1, p.2))
        else if e == 'b' then (jparseStrBody t2).map (fun p => (Char.ofNat 8 :: p.1, p.2))
        else if e == 'f' then (jparseStrBody t2).map (fun p => (Char.ofNat 12 :: p.1, p.2))
        else if e == 'n' then (jparseStrBody t2).map (fun p => ('\n' :: p.1, p.2))
        else if e == 'r' then (jparseStrBody t2).map (fun p => ('\r' :: p.1, p.2))
        else if e == 't' then (jparseStrBody t2).map (fun p => ('\t' :: p.1, p.2))
        else if e == 'u' then
          match t2 with
          | h1 :: h2 :: h3 :: h4 :: t3 =>
            match hexVal h1, hexVal h2, hexVal h3, hexVal h4 with
            | some a, some b, some c3, some d =>
              (jparseStrBody t3).map
                (fun p => (Char.ofNat (4096 * a + 256 * b + 16 * c3 + d) :: p.1, p.2))
            | _, _, _, _ => none
          | _ => none
        else none
    else if decide (c.toNat < 32) then none
    else (jparseStrBody t).map (fun p => (c :: p.1, p.2))

mutual

/-- Recursive-descent model of `json.loads` value parsing on the integer
fragment of JSON: `null`/`true`/`false`, decimal integers, double-quoted
strings, arrays and objects. Floats are outside the model. -/
def jparseVal : Nat → List Char → Option (PyVal × List Char)
  | 0, _ => none
  | f + 1, s =>
    match skipWs s with
    | [] => none
    | c :: r =>
      if c == 'n' then
        match r with
        | 'u' :: 'l' :: 'l' :: r2 => some (.none_, r2)
        | _ => none
      else if c == 't' then
        match r with
        | 'r' :: 'u' :: 'e' :: r2 => some (.bool true, r2)
        | _ => none
      else if c == 'f' then
        match r with
        | 'a' :: 'l' :: 's' :: 'e' :: r2 => some (.bool false, r2)
        | _ => none
      else if c == '-' then
        match parseNat0 r with
        | some (n, r2) => some (.int (-(n : Int)), r2)
        | none => none
      else if isDig c then
        match parseNat0 (c :: r) with
        | some (n, r2) => some (.int (n : Int), r2)
        | none => none
      else if c == dq then
        (jparseStrBody r).map (fun p => (.str p.1, p.2))
      else if c == '[' then
        match skipWs r with
        | [] => none
        | d :: r2 =>
          if d == ']' then some (.list [], r2)
          else (jparseItems f (d :: r2)).map (fun p => (.list p.1, p.2))
      else if c == lb then
        match skipWs r with
        | [] => none
        | d :: r2 =>
          if d == rb then some (.dict [], r2)
          else (jparseEntries f (d :: r2)).map
            (fun p => (.dict (dictOfEntries p.1), p.2))
      else none

/-- Elements of a non-empty JSON array up to and including the closing `]`. -/
def jparseItems : Nat → List Char → Option (List PyVal × List Char)
  | 0, _ => none
  | f + 1, s =>
    match jparseVal f s with
    | none => none
    | some (v, r) =>
      match skipWs r with
      | [] => none
      | c :: r2 =>
        if c == ']' then some ([v], r2)
        else if c == ',' then
          match jparseItems f r2 with
          | some (vs, r3) => some (v :: vs, r3)
          | none => none
        else none

/-- Entries of a non-empty JSON object up to and including the closing `}`. -/
def jparseEntries : Nat → List Char → Option (List (List Char × PyVal) × List Char)
  | 0, _ => none
  | f + 1, s =>
    match skipWs s with
    | [] => none
    | c :: r =>
      if c == dq then
        match jparseStrBody r with
        | none => none
        | some (k, r2) =>
          match skipWs r2 with
          | ':' :: r3 =>
            match jparseVal f r3 with
            | none => none
            | some (v, r4) =>
              match skipWs r4 with
              | [] => none
              | c2 :: r5 =>
                if c2 == rb then some ([(k, v)], r5)
                else if c2 == ',' then
                  match jparseEntries f r5 with
                  | some (es, r6) => some ((k, v) :: es, r6)
                  | none => none
                else none
          | _ => none
      else none

end

/-- Model of `json.loads` (src/main.py 249): parse one JSON value and require
that only whitespace remains; `none` models the `JSONDecodeError` raised
otherwise. -/
def json_loads (s : List Char) : Option PyVal :=
  match jparseVal (s.length + 1) s with
  | some (v, r) => if (skipWs r).isEmpty then some v else none
  | none => none

/-- Least index at which `pat` occurs as a contiguous substring of the text
(the start position `re.search` reports for a literal-headed pattern). -/
def findSub (pat : List Char) : List Char → Option Nat
  | [] => if pat.isEmpty then some 0 else none
  | c :: t =>
    if pat.isPrefixOf (c :: t) then some 0
    else (findSub pat t).map (· + 1)

/-- First index of character `c`, if any. -/
def firstIdxOf (c : Char) : List Char → Option Nat
  | [] => none
  | d :: t => if d == c then some 0 else (firstIdxOf c t).map (· + 1)

/-- Last index of character `c`, if any. -/
def lastIdxOf (c : Char) : List Char → Option Nat
  | [] => none
  | d :: t =>
    match lastIdxOf c t with
    | some k => some (k + 1)
    | none => if d == c then some 0 else none

/-- Opening fence of the first regex of `analyze_with_ai`
(`re.search(r'-backticks-json\n(.*?)\n-backticks-', text, re.DOTALL)`). -/
def fenceOpen : List Char := cs "```json\n"

/-- Closing fence of that regex. -/
def fenceClose : List Char := cs "\n```"

/-- Inner content of the first ```` ```json ```` fenced block: the match of the
non-greedy group — the text between the first occurrence of the opening fence
and the first occurrence of the closing fence after it (src/main.py 238-240). -/
def fencedJson (s : List Char) : Option (List Char) :=
  match findSub fenceOpen s with
  | none => none
  | some i =>
    match findSub fenceClose (s.drop (i + fenceOpen.length)) with
    | none => none
    | some j => some ((s.drop (i + fenceOpen.length)).take j)

/-- Greedy `re.search(r'\{.*\}', text, re.DOTALL)` match: the span from the
first `{` to the last `}` when the former precedes the latter
(src/main.py 243-245). -/
def braceSpan (s : List Char) : Option (List Char) :=
  match firstIdxOf lb s, lastIdxOf rb s with
  | some i, some j => if i < j then some ((s.drop i).take (j + 1 - i)) else none
  | _, _ => none

/-- Candidate-payload selection of `analyze_with_ai` (src/main.py 237-247):
fenced JSON block first, then the greedy brace span, else the raw text. -/
def extractCandidate (s : List Char) : List Char :=
  match fencedJson s with
  | some inner => inner
  | none =>
    match braceSpan s with
    | some span => span
    | none => s

/-- The `violations` value of the degraded fallback dictionary of
`analyze_with_ai` (src/main.py 257-263): one entry with the given `issue`. -/
def fallbackViolations (issue : List Char) : PyVal :=
  .list
    [ .dict
        [ (cs "category", .str (cs "Analysis Error")),
          (cs "severity", .str (cs "MEDIUM")),
          (cs "issue", .str issue),
          (cs "text_snippet", .str []),
          (cs "policy_reference", .str (cs "System Error")) ] ]

/-- The `recommendations` value of the fallback dictionary (src/main.py 264). -/
def fallbackRecs : PyVal := .list [.str (cs "Please try again or contact support")]

/-- The `summary` value of the fallback dictionary (src/main.py 265). -/
def fallbackSummary : PyVal :=
  .str (cs "Analysis could not be completed due to technical error")

/-- The degraded fallback dictionary of `analyze_with_ai` (src/main.py
253-266), with the given `issue` text. -/
def fallbackResult (issue : List Char) : PyVal :=
  .dict
    [ (cs "compliance_score", .int 50),
      (cs "risk_level", .str (cs "MEDIUM")),
      (cs "violations", fallbackViolations issue),
      (cs "recommendations", fallbackRecs),
      (cs "summary", fallbackSummary) ]

/-- Issue text interpolated from the caught exception `e`
(src/main.py 260: `f"Could not complete analysis: -str(e)-"`). -/
def transportIssue (e : List Char) : List Char :=
  cs "Could not complete analysis: " ++ e

/-- Stand-in for the text of the `json.JSONDecodeError` interpolated into the
fallback `issue` on a parse failure; the claims do not constrain it. -/
def decodeErrText : List Char := cs "Expecting value"

/-- Outcome of the remote classifier call inside `analyze_with_ai`'s `try`
block: either the raw reply text of `response.content[0].text`, or the string
of the exception raised by the transport (src/main.py 220-231). -/
abbrev Reply := Except (List Char) (List Char)

/-- Model of `analyze_with_ai` (src/main.py 169-266) downstream of the
classifier call. Prompt construction does not influence the returned value and
is not modelled; the classifier outcome is the `reply` parameter. On a
transport error, or when `json.loads` fails on the extracted candidate, the
`except` branch returns the fallback dictionary; a successfully parsed value
is returned as-is, without any shape validation. -/
def analyze_with_ai (reply : Reply) : PyVal :=
  match reply with
  | .error e => fallbackResult (transportIssue e)
  | .ok raw =>
    match json_loads (extractCandidate raw) with
    | some v => v
    | none => fallbackResult (transportIssue decodeErrText)

/-- Python exceptions and FastAPI error responses the handlers can produce. -/
inductive PyErr where
  | keyError : List Char → PyErr
  | typeError : PyErr
  | valueError : PyErr
  | http404 : PyErr
  | http422 : PyErr

/-- Subscript access `v[k]`: `KeyError` on a dict without the key, `TypeError`
on a non-dict (string subscripts on lists/ints/strings). Dicts built by
`json_loads` have unique keys, so first-match lookup is CPython lookup. -/
def dictGet (v : PyVal) (k : List Char) : Except PyErr PyVal :=
  match v with
  | .dict fs =>
    match fs.find? (fun p => p.1 == k) with
    | some p => .ok p.2
    | none => .error (.keyError k)
  | _ => .error .typeError

/-- One row of the `scan_results` table (src/main.py 36-47): the
`ClassificationResult` fields are flattened, with `violations` and
`recommendations` stored as text. -/
structure ScanResult where
  id : Nat
  user_id : List Char
  ad_copy : List Char
  image_name : Option (List Char)
  compliance_score : PyVal
  risk_level : PyVal
  violations : List Char
  recommendations : List Char
  created_at : Nat

/-- In-memory model of the store: the next autoincrement id and the rows in
insertion order. -/
structure DB where
  nextId : Nat
  rows : List ScanResult

/-- The `ScanResponse` pydantic model (src/main.py 52-58). Field values are
carried as `PyVal` since the handler passes the parsed dict's values through. -/
structure ScanResponse where
  scan_id : Nat
  compliance_score : PyVal
  risk_level : PyVal
  violations : PyVal
  recommendations : PyVal
  summary : PyVal

/-- Model of the `POST /scan` handler body (src/main.py 284-336). The field
accesses `analysis[...]` happen in source order: the four record fields are
read first, the row is committed, and only then is the response built (reading
`analysis["summary"]` last) — so an uncaught exception on `summary` leaves the
row persisted. Errors propagate to the caller as the second component; the
first component is the store after the call. -/
def scan_ad (db : DB) (now : Nat) (ad_copy : List Char) (user_id : List Char)
    (image_name : Option (List Char)) (reply : Reply) :
    DB × Except PyErr ScanResponse :=
  let analysis := analyze_with_ai reply
  match dictGet analysis (cs "compliance_score") with
  | .error e => (db, .error e)
  | .ok score =>
  match dictGet analysis (cs "risk_level") with
  | .error e => (db, .error e)
  | .ok risk =>
  match dictGet analysis (cs "violations") with
  | .error e => (db, .error e)
  | .ok viol =>
  match dictGet analysis (cs "recommendations") with
  | .error e => (db, .error e)
  | .ok recs =>
    let row : ScanResult :=
      { id := db.nextId, user_id := user_id, ad_copy := ad_copy,
        image_name := image_name, compliance_score := score, risk_level := risk,
        violations := strPy viol, recommendations := strPy recs,
        created_at := now }
    let db' : DB := { nextId := db.nextId + 1, rows := db.rows ++ [row] }
    match dictGet analysis (cs "summary") with
    | .error e => (db', .error e)
    | .ok summ =>
      (db', .ok
        { scan_id := row.id, compliance_score := score, risk_level := risk,
          violations := viol, recommendations := recs, summary := summ })

/-- Model of `POST /scan` including FastAPI's validation of the required
multipart field `ad_copy: str = Form(...)` (src/main.py 286): a request with
the field missing is rejected with a 422 before the handler body runs; any
string value, including the empty string, passes validation. -/
def scan_endpoint (db : DB) (now : Nat) (adCopy : Option (List Char))
    (user_id : List Char) (image_name : Option (List Char)) (reply : Reply) :
    DB × Except PyErr ScanResponse :=
  match adCopy with
  | none => (db, .error .http422)
  | some a => scan_ad db now a user_id image_name reply

/-- The `ad_copy_preview` expression of `get_scan_history` (src/main.py 357):
`s.ad_copy[:100] + "..." if len(s.ad_copy) > 100 else s.ad_copy`. -/
def previewOf (a : List Char) : List Char :=
  if 100 < a.length then a.take 100 ++ cs "..." else a

/-- One summary entry of the history response (src/main.py 352-358). -/
structure HistoryItem where
  scan_id : Nat
  compliance_score : PyVal
  risk_level : PyVal
  created_at : Nat
  ad_copy_preview : List Char

/-- The history response shape (src/main.py 349-359). -/
structure History where
  user_id : List Char
  total_scans : Nat
  scans : List HistoryItem

/-- Summary projection of a row. -/
def summaryOf (r : ScanResult) : HistoryItem :=
  { scan_id := r.id, compliance_score := r.compliance_score,
    risk_level := r.risk_level, created_at := r.created_at,
    ad_copy_preview := previewOf r.ad_copy }

/-- Insert a row into a list sorted by `created_at` descending (model of the
store's `ORDER BY created_at DESC`; tie order among equal timestamps is not
specified by SQL and is fixed arbitrarily by the model). -/
def insertByCreated (r : ScanResult) : List ScanResult → List ScanResult
  | [] => [r]
  | x :: t =>
    if x.created_at < r.created_at then r :: x :: t else x :: insertByCreated r t

/-- Sort rows by `created_at` descending. -/
def sortByCreatedDesc : List ScanResult → List ScanResult
  | [] => []
  | x :: t => insertByCreated x (sortByCreatedDesc t)

/-- Model of the `GET /history/:user_id` handler (src/main.py 338-361):
filter by user, order by `created_at` descending, take `limit` (default 10),
and report `total_scans` as the length of the returned page. -/
def get_scan_history (db : DB) (user_id : List Char) (limit : Nat := 10) :
    History :=
  let scans :=
    ((sortByCreatedDesc (db.rows.filter (fun r => r.user_id == user_id))).take
        limit).map summaryOf
  { user_id := user_id, total_scans := scans.length, scans := scans }

/-- The full-detail response of `GET /scan/:scan_id` (src/main.py 375-383). -/
structure ScanDetails where
  scan_id : Nat
  ad_copy : List Char
  compliance_score : PyVal
  risk_level : PyVal
  violations : PyVal
  recommendations : PyVal
  created_at : Nat

/-- Model of the `GET /scan/:scan_id` handler (src/main.py 363-385): `.first()`
on the id filter, 404 when absent, otherwise the row with `violations` and
`recommendations` deserialized by `ast.literal_eval` (whose failure raises,
modelled as `valueError`). -/
def get_scan_details (db : DB) (scan_id : Nat) : Except PyErr ScanDetails :=
  match db.rows.find? (fun r => r.id == scan_id) with
  | none => .error .http404
  | some r =>
    match literalEval r.violations, literalEval r.recommendations with
    | some v, some rec2 =>
      .ok { scan_id := r.id, ad_copy := r.ad_copy,
            compliance_score := r.compliance_score, risk_level := r.risk_level,
            violations := v, recommendations := rec2,
            created_at := r.created_at }
    | _, _ => .error .valueError

/-- The response `POST /scan` returns on the degraded path: the fallback
dictionary's values with the freshly assigned id. -/
def degradedResponse (id : Nat) (issue : List Char) : ScanResponse :=
  { scan_id := id, compliance_score := .int 50, risk_level := .str (cs "MEDIUM"),
    violations := fallbackViolations issue, recommendations := fallbackRecs,
    summary := fallbackSummary }

/-- The row `POST /scan` persists on the degraded path. -/
def degradedRow (id now : Nat) (ad u : List Char) (img : Option (List Char))
    (issue : List Char) : ScanResult :=
  { id := id, user_id := u, ad_copy := ad, image_name := img,
    compliance_score := .int 50, risk_level := .str (cs "MEDIUM"),
    violations := strPy (fallbackViolations issue),
    recommendations := strPy fallbackRecs, created_at := now }

/-- Claim-side predicate: the value is an integer score in `[0, 100]`. -/
def scoreInRange (v : PyVal) : Prop :=
  ∃ n : Int, v = .int n ∧ 0 ≤ n ∧ n ≤ 100

/-- Claim-side predicate: the value is one of the four risk-level strings. -/
def riskLevelOk (v : PyVal) : Prop :=
  v = .str (cs "LOW") ∨ v = .str (cs "MEDIUM") ∨
    v = .str (cs "HIGH") ∨ v = .str (cs "CRITICAL")

/-- Claim-side predicate: `pat` occurs in `s` starting at index `i`. -/
def OccursAt (pat s : List Char) (i : Nat) : Prop :=
  pat <+: s.drop i

/-- Claim-side predicate: the text contains a ```` ```json ```` opening fence
with a closing fence after its end — exactly when the first regex of
`analyze_with_ai` matches. -/
def FencePresent (s : List Char) : Prop :=
  ∃ i j, OccursAt fenceOpen s i ∧ OccursAt fenceClose (s.drop (i + fenceOpen.length)) j

/-- Claim-side predicate: the text contains a `-LB-` followed later by a `-RB-`
— exactly when the second regex of `analyze_with_ai` matches. -/
def BracePair (s : List Char) : Prop :=
  ∃ i j, i < j ∧ s.get? i = some lb ∧ s.get? j = some rb

/-- Head of the trailing text is not a decimal digit (so a digit lexer stops
at the value boundary). -/
def headNotDig : List Char → Prop
  | [] => True
  | c :: _ => isDig c = false

/-- Store well-formedness: every existing row id is below the autoincrement
counter (what the store's atomic id assignment guarantees). -/
def DBWF (db : DB) : Prop :=
  ∀ r ∈ db.rows, r.id < db.nextId

/-- Empty store with autoincrement counter at 1, as SQLite starts. -/
def db0 : DB := ⟨1, []⟩

/-- Classifier reply that is valid JSON but lacks every
`ClassificationResult` field. -/
def rawEmptyObj : List Char := cs "\x7b\x7d"

/-- Classifier reply with a well-typed shape but an out-of-range score and an
unknown risk level. -/
def rawBadScore : List Char :=
  cs "\x7b\"compliance_score\": 150, \"risk_level\": \"SEVERE\", \"violations\": [], \"recommendations\": [], \"summary\": \"bad\"\x7d"

/-- Classifier reply carrying a complete well-formed result inside a
```` ```json ```` fence. -/
def rawGood : List Char :=
  cs "Here is the analysis:\n```json\n\x7b\"compliance_score\": 90, \"risk_level\": \"LOW\", \"violations\": [\x7b\"category\": \"Health\", \"severity\": \"LOW\", \"issue\": \"minor\", \"text_snippet\": \"Lose 30 pounds\", \"policy_reference\": \"Health and Weight Loss\"\x7d], \"recommendations\": [\"soften the claim\"], \"summary\": \"mostly fine\"\x7d\n```"

/-- The single violation entry carried by `rawGood`. -/
def vGood : PyVal :=
  .dict
    [ (cs "category", .str (cs "Health")),
      (cs "severity", .str (cs "LOW")),
      (cs "issue", .str (cs "minor")),
      (cs "text_snippet", .str (cs "Lose 30 pounds")),
      (cs "policy_reference", .str (cs "Health and Weight Loss")) ]

/-- Row for history tests: user `u1`, short ad copy, older timestamp. -/
def rowA : ScanResult :=
  { id := 1, user_id := cs "u1", ad_copy := cs "shortad", image_name := none,
    compliance_score := .int 90, risk_level := .str (cs "LOW"),
    violations := reprPy (.list []), recommendations := reprPy (.list []),
    created_at := 5 }

/-- Row for history tests: user `u1`, 110-character ad copy, newest. -/
def rowB : ScanResult :=
  { id := 2, user_id := cs "u1", ad_copy := List.replicate 110 'a',
    image_name := none, compliance_score := .int 40,
    risk_level := .str (cs "HIGH"), violations := reprPy (.list []),
    recommendations := reprPy (.list []), created_at := 9 }

/-- Row for history tests: a different user. -/
def rowC : ScanResult :=
  { id := 3, user_id := cs "u2", ad_copy := cs "other", image_name := none,
    compliance_score := .int 70, risk_level := .str (cs "MEDIUM"),
    violations := reprPy (.list []), recommendations := reprPy (.list []),
    created_at := 7 }

/-- Store with three rows across two users. -/
def db1 : DB := ⟨4, [rowA, rowB, rowC]⟩

/-- Text with a fenced JSON block for the extraction tests. -/
def sFence : List Char := cs "prose ```json\nhello \x7bworld\n``` trailing ```"

theorem beqFalse {p : Char → Bool} {c x : Char} (h : p c = true) (hx : p x = false) :
    (c == x) = false := by
  cases hcx : c == x
  · rfl
  · have hcx' := eq_of_beq hcx
    subst hcx'
    rw [h] at hx
    exact Bool.noConfusion hx

theorem skipWs_cons {c : Char} {t : List Char} (h : isWs c = false) :
    skipWs (c :: t) = c :: t := by
  simp [skipWs, h]

theorem skipWs_ws_cons {c : Char} {t : List Char} (h : isWs c = true) :
    skipWs (c :: t) = skipWs t := by
  simp [skipWs, h]

theorem isDig_digitChar : ∀ m < 10, isDig (Char.ofNat (48 + m)) = true := by decide

theorem toNat_digitChar : ∀ m < 10, (Char.ofNat (48 + m)).toNat - 48 = m := by decide

theorem natDigits_lt {n : Nat} (h : n < 10) :
    natDigits n = [Char.ofNat (48 + n)] := by
  rw [natDigits]
  simp [h]

theorem natDigits_ge {n : Nat} (h : ¬ n < 10) :
    natDigits n = natDigits (n / 10) ++ [Char.ofNat (48 + n % 10)] := by
  conv_lhs => rw [natDigits]
  simp [h]

theorem natDigits_head (n : Nat) :
    ∃ c t, natDigits n = c :: t ∧ isDig c = true := by
  induction n using Nat.strong_induction_on with
  | _ n ih =>
    by_cases h : n < 10
    · exact ⟨_, _, natDigits_lt h, isDig_digitChar n h⟩
    · obtain ⟨c, t, hct, hc⟩ := ih (n / 10) (Nat.div_lt_self (by omega) (by omega))
      exact ⟨c, t ++ [Char.ofNat (48 + n % 10)], by rw [natDigits_ge h, hct]; simp, hc⟩

theorem parseDigits_stop (acc : Nat) {rest : List Char} (h : headNotDig rest) :
    parseDigits acc rest = (acc, rest) := by
  cases rest with
  | nil => rfl
  | cons c t =>
    have h' : isDig c = false := h
    simp [parseDigits, h']

theorem parseDigits_natDigits (n : Nat) : ∀ acc rest,
    parseDigits acc (natDigits n ++ rest) =
      parseDigits (acc * 10 ^ (natDigits n).length + n) rest := by
  induction n using Nat.strong_induction_on with
  | _ n ih =>
    intro acc rest
    by_cases h : n < 10
    · rw [natDigits_lt h]
      simp only [List.cons_append, List.nil_append, parseDigits,
        isDig_digitChar n h, if_true, toNat_digitChar n h, List.length_singleton,
        pow_one]
      rfl
    · rw [natDigits_ge h, List.append_assoc,
        ih (n / 10) (Nat.div_lt_self (by omega) (by omega))]
      have hd : isDig (Char.ofNat (48 + n % 10)) = true :=
        isDig_digitChar _ (Nat.mod_lt _ (by omega))
      have ht : (Char.ofNat (48 + n % 10)).toNat - 48 = n % 10 :=
        toNat_digitChar _ (Nat.mod_lt _ (by omega))
      simp only [List.cons_append, List.nil_append, parseDigits, hd, if_true, ht,
        List.length_append, List.length_singleton]
      congr 1
      calc (acc * 10 ^ (natDigits (n / 10)).length + n / 10) * 10 + n % 10
          = acc * (10 ^ (natDigits (n / 10)).length * 10) +
              (10 * (n / 10) + n % 10) := by ring
        _ = acc * 10 ^ ((natDigits (n / 10)).length + 1) + n := by
            rw [Nat.div_add_mod, pow_succ]

theorem parseNat0_natDigits (n : Nat) {rest : List Char} (h : headNotDig rest) :
    parseNat0 (natDigits n ++ rest) = some (n, rest) := by
  obtain ⟨c, t, hct, hc⟩ := natDigits_head n
  rw [hct, List.cons_append, parseNat0, if_pos hc, ← List.cons_append, ← hct,
    parseDigits_natDigits, parseDigits_stop _ h]
  simp

theorem hexDig_val : ∀ a < 16, hexVal (hexDig a) = some a := by decide

theorem parseStrBody_esc {q : Char} (hq : q = sq ∨ q = dq) (s : List Char)
    (rest : List Char) :
    parseStrBody q (escBody q s ++ (q :: rest)) = some (s, rest) := by
  induction s with
  | nil =>
    have hqq : (q == q) = true := beq_self_eq_true q
    rw [parseStrBody.eq_def]
    simp [escBody, hqq]
  | cons c s' ih =>
    rw [show escBody q (c :: s') ++ (q :: rest) =
      escChar q c ++ (escBody q s' ++ (q :: rest)) by
        simp [escBody, List.append_assoc]]
    have hbsq : (bs == q) = false := by
      rcases hq with h | h <;> subst h <;> decide
    cases hbs : c == bs with
    | true =>
      have := eq_of_beq hbs
      subst this
      rw [parseStrBody.eq_def]
      simp +decide [escChar, hbsq, ih]
    | false =>
    cases hcq : c == q with
    | true =>
      have := eq_of_beq hcq
      subst this
      rcases hq with h | h <;> subst h <;>
        rw [parseStrBody.eq_def] <;> simp +decide [escChar, ih]
    | false =>
    cases hnl : c == '\n' with
    | true =>
      have := eq_of_beq hnl
      subst this
      rw [parseStrBody.eq_def]
      simp +decide [escChar, hbsq, hcq, ih]
    | false =>
    cases hcr : c == '\r' with
    | true =>
      have := eq_of_beq hcr
      subst this
      rw [parseStrBody.eq_def]
      simp +decide [escChar, hbsq, hcq, ih]
    | false =>
    cases htb : c == '\t' with
    | true =>
      have := eq_of_beq htb
      subst this
      rw [parseStrBody.eq_def]
      simp +decide [escChar, hbsq, hcq, ih]
    | false =>
    cases hctl : decide (c.toNat < 32) || decide (c.toNat = 127) with
    | true =>
      have hlt : c.toNat < 32 ∨ c.toNat = 127 := by
        simpa using hctl
      have h1 := hexDig_val (c.toNat / 16) (by omega)
      have h2 := hexDig_val (c.toNat % 16) (Nat.mod_lt _ (by omega))
      rw [parseStrBody.eq_def]
      simp +decide [escChar, hbs, hcq, hnl, hcr, htb, hctl, hbsq,
        h1, h2, Nat.div_add_mod, Char.ofNat_toNat, ih]
    | false =>
      rw [parseStrBody.eq_def]
      simp [escChar, hbs, hcq, hnl, hcr, htb, hctl, hbsq, ih]

theorem reprOfStr_quote (s : List Char) :
    ∃ q, (q = sq ∨ q = dq) ∧ reprOfStr s = q :: (escBody q s ++ [q]) := by
  by_cases h : (s.contains sq && !(s.contains dq)) = true
  · exact ⟨dq, Or.inr rfl, by rw [reprOfStr]; simp only [h, if_true]⟩
  · have h' : (s.contains sq && !(s.contains dq)) = false := by
      simpa using h
    exact ⟨sq, Or.inl rfl, by rw [reprOfStr, h']; simp only [Bool.false_eq_true,
      if_false]⟩

theorem isWs_of_isDig {c : Char} (h : isDig c = true) : isWs c = false := by
  simp [isDig] at h
  simp [isWs]
  omega

theorem parseVal_ws {c : Char} (h : isWs c = true) (f : Nat) (s : List Char) :
    parseVal f (c :: s) = parseVal f s := by
  cases f with
  | zero => rfl
  | succ f =>
    rw [parseVal.eq_def]
    conv_rhs => rw [parseVal.eq_def]
    simp only [skipWs_ws_cons h]

theorem parseItems_ws {c : Char} (h : isWs c = true) (f : Nat) (s : List Char) :
    parseItems f (c :: s) = parseItems f s := by
  cases f with
  | zero => rfl
  | succ f =>
    rw [parseItems.eq_def]
    conv_rhs => rw [parseItems.eq_def]
    simp only [parseVal_ws h]

theorem parseEntries_ws {c : Char} (h : isWs c = true) (f : Nat) (s : List Char) :
    parseEntries f (c :: s) = parseEntries f s := by
  cases f with
  | zero => rfl
  | succ f =>
    rw [parseEntries.eq_def]
    conv_rhs => rw [parseEntries.eq_def]
    simp only [skipWs_ws_cons h]

theorem reprPy_head (v : PyVal) :
    ∃ c t, reprPy v = c :: t ∧ isWs c = false ∧ (c == ']') = false := by
  cases v with
  | none_ => exact ⟨'N', cs "one", rfl, by decide, by decide⟩
  | bool b =>
    cases b with
    | false => exact ⟨'F', cs "alse", rfl, by decide, by decide⟩
    | true => exact ⟨'T', cs "rue", rfl, by decide, by decide⟩
  | int n =>
    rw [show reprPy (.int n) = intRepr n from rfl, intRepr]
    split_ifs with h
    · exact ⟨'-', _, rfl, by decide, by decide⟩
    · obtain ⟨c, t, hct, hc⟩ := natDigits_head n.toNat
      exact ⟨c, t, by rw [hct], isWs_of_isDig hc, beqFalse hc (by decide)⟩
  | str s =>
    obtain ⟨q, hq, hrepr⟩ := reprOfStr_quote s
    refine ⟨q, _, by rw [show reprPy (.str s) = reprOfStr s from rfl, hrepr], ?_, ?_⟩ <;>
      rcases hq with h | h <;> subst h <;> decide
  | list xs => exact ⟨'[', _, rfl, by decide, by decide⟩
  | dict fs => exact ⟨lb, _, rfl, by decide, by decide⟩

theorem reprItems_head (x : PyVal) (xs : List PyVal) :
    ∃ c t, reprItems (x :: xs) = c :: t ∧ isWs c = false ∧ (c == ']') = false := by
  obtain ⟨c, t, hct, h1, h2⟩ := reprPy_head x
  cases xs with
  | nil => exact ⟨c, t, by rw [show reprItems [x] = reprPy x from rfl, hct], h1, h2⟩
  | cons y t2 =>
    refine ⟨c, t ++ (',' :: ' ' :: reprItems (y :: t2)), ?_, h1, h2⟩
    rw [show reprItems (x :: y :: t2) =
      reprPy x ++ (',' :: ' ' :: reprItems (y :: t2)) from rfl, hct,
      List.cons_append]

theorem reprEntries_head (k : List Char) (v : PyVal) (es : List (List Char × PyVal)) :
    ∃ q t, reprEntries ((k, v) :: es) = q :: t ∧ (q = sq ∨ q = dq) := by
  obtain ⟨q, hq, hrepr⟩ := reprOfStr_quote k
  cases es with
  | nil =>
    refine ⟨q, (escBody q k ++ [q]) ++ (':' :: ' ' :: reprPy v), ?_, hq⟩
    rw [show reprEntries [(k, v)] = reprOfStr k ++ (':' :: ' ' :: reprPy v) from rfl,
      hrepr, List.cons_append]
  | cons e t2 =>
    refine ⟨q, ((escBody q k ++ [q]) ++ (':' :: ' ' :: reprPy v)) ++
      (',' :: ' ' :: reprEntries (e :: t2)), ?_, hq⟩
    rw [show reprEntries ((k, v) :: e :: t2) =
      reprOfStr k ++ (':' :: ' ' :: reprPy v) ++ (',' :: ' ' :: reprEntries (e :: t2))
      from rfl, hrepr]
    simp only [List.cons_append]

theorem pvFuel_pos (v : PyVal) : 1 ≤ pvFuel v := by
  cases v <;> simp [pvFuel]

theorem intRepr_len_pos (n : Int) : 1 ≤ (intRepr n).length := by
  rw [intRepr]
  split_ifs with h
  · simp
  · obtain ⟨c, t, hct, _⟩ := natDigits_head n.toNat
    simp [hct]

theorem fuelBound : ∀ N : Nat,
    (∀ v, pvFuel v ≤ N → pvFuel v ≤ (reprPy v).length) ∧
    (∀ xs, itemsFuel xs ≤ N → itemsFuel xs ≤ (reprItems xs).length + 1) ∧
    (∀ es, entriesFuel es ≤ N → entriesFuel es ≤ (reprEntries es).length + 1) := by
  intro N
  induction N with
  | zero =>
    refine ⟨fun v hv => absurd hv (by have := pvFuel_pos v; omega),
      fun xs hxs => ?_, fun es hes => ?_⟩
    · cases xs with
      | nil => simp [itemsFuel]
      | cons x t => simp [itemsFuel] at hxs
    · cases es with
      | nil => simp [entriesFuel]
      | cons e t => obtain ⟨k, v⟩ := e; simp [entriesFuel] at hes
  | succ N ih =>
    obtain ⟨ihV, ihI, ihE⟩ := ih
    refine ⟨?_, ?_, ?_⟩
    · intro v hv
      cases v with
      | none_ => simp [pvFuel, reprPy, cs]
      | bool b => cases b <;> simp [pvFuel, reprPy, cs]
      | int n =>
        have := intRepr_len_pos n
        simp only [pvFuel, show reprPy (.int n) = intRepr n from rfl]
        omega
      | str s =>
        obtain ⟨q, hq, hrepr⟩ := reprOfStr_quote s
        simp [pvFuel, show reprPy (.str s) = reprOfStr s from rfl, hrepr]
      | list xs =>
        have hx : itemsFuel xs ≤ N := by simp [pvFuel] at hv; omega
        have := ihI xs hx
        simp only [pvFuel, show reprPy (.list xs) = '[' :: (reprItems xs ++ [']'])
          from rfl, List.length_cons, List.length_append, List.length_singleton]
        omega
      | dict fs =>
        have hx : entriesFuel fs ≤ N := by simp [pvFuel] at hv; omega
        have := ihE fs hx
        simp only [pvFuel, show reprPy (.dict fs) = lb :: (reprEntries fs ++ [rb])
          from rfl, List.length_cons, List.length_append, List.length_singleton]
        omega
    · intro xs hxs
      cases xs with
      | nil => simp [itemsFuel]
      | cons x t =>
        cases t with
        | nil =>
          have hx : pvFuel x ≤ N := by simp [itemsFuel] at hxs; omega
          have := ihV x hx
          simp only [itemsFuel, show reprItems [x] = reprPy x from rfl]
          omega
        | cons y t2 =>
          rw [show itemsFuel (x :: y :: t2) =
            1 + pvFuel x + itemsFuel (y :: t2) from rfl] at hxs
          have e1 := ihV x (by omega)
          have e2 := ihI (y :: t2) (by omega)
          rw [show itemsFuel (x :: y :: t2) =
            1 + pvFuel x + itemsFuel (y :: t2) from rfl,
            show reprItems (x :: y :: t2) =
            reprPy x ++ (',' :: ' ' :: reprItems (y :: t2)) from rfl]
          simp only [List.length_append, List.length_cons]
          omega
    · intro es hes
      cases es with
      | nil => simp [entriesFuel]
      | cons e t =>
        obtain ⟨k, v⟩ := e
        cases t with
        | nil =>
          have hx : pvFuel v ≤ N := by simp [entriesFuel] at hes; omega
          have := ihV v hx
          simp only [entriesFuel, show reprEntries [(k, v)] =
            reprOfStr k ++ (':' :: ' ' :: reprPy v) from rfl,
            List.length_append, List.length_cons]
          omega
        | cons e2 t2 =>
          rw [show entriesFuel ((k, v) :: e2 :: t2) =
            1 + pvFuel v + entriesFuel (e2 :: t2) from rfl] at hes
          have b1 := ihV v (by omega)
          have b2 := ihE (e2 :: t2) (by omega)
          rw [show entriesFuel ((k, v) :: e2 :: t2) =
            1 + pvFuel v + entriesFuel (e2 :: t2) from rfl,
            show reprEntries ((k, v) :: e2 :: t2) =
            reprOfStr k ++ (':' :: ' ' :: reprPy v) ++
              (',' :: ' ' :: reprEntries (e2 :: t2)) from rfl]
          simp only [List.length_append, List.length_cons]
          omega

theorem parseRT : ∀ f : Nat,
    (∀ v rest, pvFuel v ≤ f → headNotDig rest →
      parseVal f (reprPy v ++ rest) = some (v, rest)) ∧
    (∀ x xs rest, itemsFuel (x :: xs) ≤ f →
      parseItems f (reprItems (x :: xs) ++ (']' :: rest)) = some (x :: xs, rest)) ∧
    (∀ k v es rest, entriesFuel ((k, v) :: es) ≤ f →
      parseEntries f (reprEntries ((k, v) :: es) ++ (rb :: rest)) =
        some ((k, v) :: es, rest)) := by
  intro f
  induction f with
  | zero =>
    refine ⟨fun v rest hv _ => absurd hv (by have := pvFuel_pos v; omega),
      fun x xs rest hx => absurd hx (by
        rw [show itemsFuel (x :: xs) = 1 + pvFuel x + itemsFuel xs from rfl]; omega),
      fun k v es rest he => absurd he (by
        rw [show entriesFuel ((k, v) :: es) = 1 + pvFuel v + entriesFuel es from rfl]
        omega)⟩
  | succ f ih =>
    obtain ⟨ihV, ihI, ihE⟩ := ih
    refine ⟨?_, ?_, ?_⟩
    · intro v rest hv hrest
      cases v with
      | none_ =>
        show parseVal (f + 1) ('N' :: 'o' :: 'n' :: 'e' :: rest) = some (.none_, rest)
        rw [parseVal.eq_def]
        simp +decide [skipWs]
      | bool b =>
        cases b with
        | true =>
          show parseVal (f + 1) ('T' :: 'r' :: 'u' :: 'e' :: rest) =
            some (.bool true, rest)
          rw [parseVal.eq_def]
          simp +decide [skipWs]
        | false =>
          show parseVal (f + 1) ('F' :: 'a' :: 'l' :: 's' :: 'e' :: rest) =
            some (.bool false, rest)
          rw [parseVal.eq_def]
          simp +decide [skipWs]
      | int n =>
        by_cases hn : n < 0
        · have hrepr : reprPy (.int n) = '-' :: natDigits (-n).toNat := by
            rw [show reprPy (.int n) = intRepr n from rfl, intRepr, if_pos hn]
          have hp : parseNat0 (natDigits (-n).toNat ++ rest) =
              some ((-n).toNat, rest) := parseNat0_natDigits _ hrest
          rw [hrepr, List.cons_append, parseVal.eq_def]
          simp +decide [skipWs, hp]
          omega
        · have hrepr : reprPy (.int n) = natDigits n.toNat := by
            rw [show reprPy (.int n) = intRepr n from rfl, intRepr, if_neg hn]
          obtain ⟨c, t, hct, hc⟩ := natDigits_head n.toNat
          have hp : parseNat0 (c :: (t ++ rest)) = some (n.toNat, rest) := by
            rw [← List.cons_append, ← hct, parseNat0_natDigits _ hrest]
          have hskip : skipWs (c :: (t ++ rest)) = c :: (t ++ rest) :=
            skipWs_cons (isWs_of_isDig hc)
          have g1 : (c == 'N') = false := beqFalse hc (by decide)
          have g2 : (c == 'T') = false := beqFalse hc (by decide)
          have g3 : (c == 'F') = false := beqFalse hc (by decide)
          have g4 : (c == '-') = false := beqFalse hc (by decide)
          rw [hrepr, hct, List.cons_append, parseVal.eq_def]
          simp +decide [hskip, g1, g2, g3, g4, hc, hp]
          omega
      | str s =>
        obtain ⟨q, hq, hrepr⟩ := reprOfStr_quote s
        have hps := parseStrBody_esc hq s rest
        rw [show reprPy (.str s) = reprOfStr s from rfl, hrepr]
        simp only [List.cons_append, List.append_assoc, List.singleton_append]
        rw [parseVal.eq_def]
        rcases hq with h | h <;> subst h <;> simp +decide [skipWs, hps]
      | list xs =>
        cases xs with
        | nil =>
          show parseVal (f + 1) ('[' :: ']' :: rest) = some (.list [], rest)
          rw [parseVal.eq_def]
          simp +decide [skipWs]
        | cons x xs' =>
          obtain ⟨c, t, hct, hws, hbr⟩ := reprItems_head x xs'
          have hfu : itemsFuel (x :: xs') ≤ f := by
            rw [show pvFuel (.list (x :: xs')) = 1 + itemsFuel (x :: xs') from rfl]
              at hv
            omega
          have hitems := ihI x xs' rest hfu
          rw [show reprPy (.list (x :: xs')) =
            '[' :: (reprItems (x :: xs') ++ [']']) from rfl, hct]
          rw [hct] at hitems
          simp only [List.cons_append, List.append_assoc, List.singleton_append]
            at hitems ⊢
          have hskipc : skipWs (c :: (t ++ (']' :: rest))) =
              c :: (t ++ (']' :: rest)) := skipWs_cons hws
          have hskipb : skipWs ('[' :: c :: (t ++ (']' :: rest))) =
              '[' :: c :: (t ++ (']' :: rest)) := skipWs_cons (by decide)
          rw [parseVal.eq_def]
          simp +decide [hskipb, hskipc, hbr, hitems]
      | dict fs =>
        cases fs with
        | nil =>
          show parseVal (f + 1) (lb :: rb :: rest) = some (.dict [], rest)
          rw [parseVal.eq_def]
          simp +decide [skipWs]
        | cons e es =>
          obtain ⟨k, v⟩ := e
          obtain ⟨q, t, hqt, hq⟩ := reprEntries_head k v es
          have hfu : entriesFuel ((k, v) :: es) ≤ f := by
            rw [show pvFuel (.dict ((k, v) :: es)) =
              1 + entriesFuel ((k, v) :: es) from rfl] at hv
            omega
          have hents := ihE k v es rest hfu
          rw [show reprPy (.dict ((k, v) :: es)) =
            lb :: (reprEntries ((k, v) :: es) ++ [rb]) from rfl, hqt]
          rw [hqt] at hents
          simp only [List.cons_append, List.append_assoc, List.singleton_append]
            at hents ⊢
          have hskipq : skipWs (q :: (t ++ (rb :: rest))) =
              q :: (t ++ (rb :: rest)) :=
            skipWs_cons (by rcases hq with h | h <;> subst h <;> decide)
          have hqrb : (q == rb) = false := by
            rcases hq with h | h <;> subst h <;> decide
          have hskipl : skipWs (lb :: q :: (t ++ (rb :: rest))) =
              lb :: q :: (t ++ (rb :: rest)) := skipWs_cons (by decide)
          rw [parseVal.eq_def]
          simp +decide [hskipl, hskipq, hqrb, hents]
    · intro x xs rest hfu
      rw [show itemsFuel (x :: xs) = 1 + pvFuel x + itemsFuel xs from rfl] at hfu
      cases xs with
      | nil =>
        have hval := ihV x (']' :: rest) (by omega)
          (by show isDig ']' = false; decide)
        rw [show reprItems [x] = reprPy x from rfl, parseItems.eq_def]
        simp +decide [skipWs, hval]
      | cons y ys =>
        rw [show itemsFuel (y :: ys) = 1 + pvFuel y + itemsFuel ys from rfl] at hfu
        have hval := ihV x
          (',' :: ' ' :: (reprItems (y :: ys) ++ (']' :: rest))) (by omega)
          (by show isDig ',' = false; decide)
        have hrec := ihI y ys rest (by
          rw [show itemsFuel (y :: ys) = 1 + pvFuel y + itemsFuel ys from rfl]
          omega)
        have hws2 : parseItems f
            (' ' :: (reprItems (y :: ys) ++ (']' :: rest))) =
            parseItems f (reprItems (y :: ys) ++ (']' :: rest)) :=
          parseItems_ws (by decide) f _
        rw [show reprItems (x :: y :: ys) =
          reprPy x ++ (',' :: ' ' :: reprItems (y :: ys)) from rfl]
        simp only [List.cons_append, List.append_assoc, List.singleton_append]
          at hval ⊢
        rw [parseItems.eq_def]
        simp +decide [skipWs, hval, hws2, hrec]
    · intro k v es rest hfu
      rw [show entriesFuel ((k, v) :: es) = 1 + pvFuel v + entriesFuel es from rfl]
        at hfu
      obtain ⟨q, hq, hrepr⟩ := reprOfStr_quote k
      have hskipq : ∀ X : List Char, skipWs (q :: X) = q :: X :=
        fun X => skipWs_cons (by rcases hq with h | h <;> subst h <;> decide)
      have hqd : (q == sq || q == dq) = true := by
        rcases hq with h | h <;> subst h <;> decide
      cases es with
      | nil =>
        have hval := ihV v (rb :: rest) (by omega)
          (by show isDig rb = false; decide)
        have hvws : parseVal f (' ' :: (reprPy v ++ (rb :: rest))) =
            parseVal f (reprPy v ++ (rb :: rest)) := parseVal_ws (by decide) f _
        have hps := parseStrBody_esc hq k
          (':' :: ' ' :: (reprPy v ++ (rb :: rest)))
        rw [show reprEntries [(k, v)] =
          reprOfStr k ++ (':' :: ' ' :: reprPy v) from rfl, hrepr]
        simp only [List.cons_append, List.append_assoc, List.singleton_append]
          at hps ⊢
        have hsk2 : skipWs (':' :: ' ' :: (reprPy v ++ (rb :: rest))) =
            ':' :: ' ' :: (reprPy v ++ (rb :: rest)) := skipWs_cons (by decide)
        have hsk3 : skipWs (rb :: rest) = rb :: rest := skipWs_cons (by decide)
        rw [parseEntries.eq_def]
        simp +decide [hskipq, hqd, hps, hvws, hval, hsk2, hsk3]
      | cons e2 es2 =>
        obtain ⟨k2, v2⟩ := e2
        rw [show entriesFuel ((k2, v2) :: es2) =
          1 + pvFuel v2 + entriesFuel es2 from rfl] at hfu
        have hval := ihV v
          (',' :: ' ' :: (reprEntries ((k2, v2) :: es2) ++ (rb :: rest)))
          (by omega) (by show isDig ',' = false; decide)
        have hrec := ihE k2 v2 es2 rest (by
          rw [show entriesFuel ((k2, v2) :: es2) =
            1 + pvFuel v2 + entriesFuel es2 from rfl]
          omega)
        have hvws : parseVal f (' ' :: (reprPy v ++
            (',' :: ' ' :: (reprEntries ((k2, v2) :: es2) ++ (rb :: rest))))) =
            parseVal f (reprPy v ++
            (',' :: ' ' :: (reprEntries ((k2, v2) :: es2) ++ (rb :: rest)))) :=
          parseVal_ws (by decide) f _
        have hews : parseEntries f
            (' ' :: (reprEntries ((k2, v2) :: es2) ++ (rb :: rest))) =
            parseEntries f (reprEntries ((k2, v2) :: es2) ++ (rb :: rest)) :=
          parseEntries_ws (by decide) f _
        have hps := parseStrBody_esc hq k
          (':' :: ' ' :: (reprPy v ++
            (',' :: ' ' :: (reprEntries ((k2, v2) :: es2) ++ (rb :: rest)))))
        rw [show reprEntries ((k, v) :: (k2, v2) :: es2) =
          reprOfStr k ++ (':' :: ' ' :: reprPy v) ++
            (',' :: ' ' :: reprEntries ((k2, v2) :: es2)) from rfl, hrepr]
        simp only [List.cons_append, List.append_assoc, List.singleton_append]
          at hps ⊢
        have hsk2 : skipWs (':' :: ' ' :: (reprPy v ++
            (',' :: ' ' :: (reprEntries ((k2, v2) :: es2) ++ (rb :: rest))))) =
            ':' :: ' ' :: (reprPy v ++
            (',' :: ' ' :: (reprEntries ((k2, v2) :: es2) ++ (rb :: rest)))) :=
          skipWs_cons (by decide)
        have hsk4 : skipWs
            (',' :: ' ' :: (reprEntries ((k2, v2) :: es2) ++ (rb :: rest))) =
            ',' :: ' ' :: (reprEntries ((k2, v2) :: es2) ++ (rb :: rest)) :=
          skipWs_cons (by decide)
        rw [parseEntries.eq_def]
        simp +decide [hskipq, hqd, hps, hvws, hval, hews, hrec, hsk2, hsk4]

theorem literalEval_reprPy (v : PyVal) : literalEval (reprPy v) = some v := by
  have hb := (fuelBound (pvFuel v)).1 v le_rfl
  have h := (parseRT ((reprPy v).length + 1)).1 v [] (by omega) trivial
  rw [List.append_nil] at h
  rw [literalEval, h]
  simp [skipWs]

theorem findSub_some {pat s : List Char} {i : Nat} (h : findSub pat s = some i) :
    pat <+: s.drop i ∧ ∀ k, k < i → ¬ pat <+: s.drop k := by
  induction s generalizing i with
  | nil =>
    rw [findSub] at h
    by_cases hp : pat.isEmpty = true
    · rw [if_pos hp] at h
      simp only [Option.some.injEq] at h
      subst h
      have hpe : pat = [] := by
        cases pat with
        | nil => rfl
        | cons a t2 => simp at hp
      exact ⟨by simp [hpe], fun k hk => absurd hk (by omega)⟩
    · rw [if_neg hp] at h
      cases h
  | cons c t ih =>
    rw [findSub] at h
    split_ifs at h with hp
    · simp only [Option.some.injEq] at h
      subst h
      exact ⟨by rw [List.drop_zero]; exact List.isPrefixOf_iff_prefix.mp hp,
        fun k hk => absurd hk (by omega)⟩
    · obtain ⟨j, hft, hji⟩ := Option.map_eq_some'.mp h
      subst hji
      obtain ⟨h1, h2⟩ := ih hft
      constructor
      · rw [List.drop_succ_cons]
        exact h1
      · intro k hk
        cases k with
        | zero =>
          rw [List.drop_zero]
          intro hpre
          exact hp (List.isPrefixOf_iff_prefix.mpr hpre)
        | succ k2 =>
          rw [List.drop_succ_cons]
          exact h2 k2 (by omega)

theorem findSub_none {pat s : List Char} (h : findSub pat s = none) :
    ∀ k, ¬ pat <+: s.drop k := by
  induction s with
  | nil =>
    rw [findSub] at h
    split_ifs at h with hp
    intro k hpre
    rw [List.drop_nil] at hpre
    have hpe : pat = [] := List.prefix_nil.mp hpre
    subst hpe
    simp at hp
  | cons c t ih =>
    rw [findSub] at h
    split_ifs at h with hp
    have hft : findSub pat t = none := by
      simpa using h
    intro k
    cases k with
    | zero =>
      rw [List.drop_zero]
      intro hpre
      exact hp (List.isPrefixOf_iff_prefix.mpr hpre)
    | succ k2 =>
      rw [List.drop_succ_cons]
      exact ih hft k2

theorem firstIdxOf_some {c : Char} {s : List Char} {i : Nat}
    (h : firstIdxOf c s = some i) :
    s.get? i = some c ∧ ∀ k, k < i → s.get? k ≠ some c := by
  induction s generalizing i with
  | nil => rw [firstIdxOf] at h; cases h
  | cons d t ih =>
    rw [firstIdxOf] at h
    split_ifs at h with hdc
    · simp only [Option.some.injEq] at h
      subst h
      exact ⟨by simp [eq_of_beq hdc], fun k hk => absurd hk (by omega)⟩
    · obtain ⟨j, hft, hji⟩ := Option.map_eq_some'.mp h
      subst hji
      obtain ⟨h1, h2⟩ := ih hft
      refine ⟨by simpa using h1, ?_⟩
      intro k hk
      cases k with
      | zero =>
        rw [List.get?_cons_zero]
        intro he
        have hd : d = c := by
          simpa using he
        exact hdc (by rw [hd]; exact beq_self_eq_true c)
      | succ k2 =>
        rw [List.get?_cons_succ]
        exact h2 k2 (by omega)

theorem firstIdxOf_none {c : Char} {s : List Char} (h : firstIdxOf c s = none) :
    ∀ k, s.get? k ≠ some c := by
  induction s with
  | nil => intro k; simp
  | cons d t ih =>
    rw [firstIdxOf] at h
    split_ifs at h with hdc
    have hft : firstIdxOf c t = none := by
      simpa using h
    intro k
    cases k with
    | zero =>
      rw [List.get?_cons_zero]
      intro he
      have hd : d = c := by simpa using he
      exact hdc (by rw [hd]; exact beq_self_eq_true c)
    | succ k2 =>
      rw [List.get?_cons_succ]
      exact ih hft k2

theorem lastIdxOf_none {c : Char} {s : List Char} (h : lastIdxOf c s = none) :
    ∀ k, s.get? k ≠ some c := by
  induction s with
  | nil => intro k; simp
  | cons d t ih =>
    rw [lastIdxOf] at h
    cases hlt : lastIdxOf c t with
    | some k0 => rw [hlt] at h; cases h
    | none =>
      rw [hlt] at h
      split_ifs at h with hdc
      intro k
      cases k with
      | zero =>
        rw [List.get?_cons_zero]
        intro he
        have hd : d = c := by simpa using he
        exact hdc (by rw [hd]; exact beq_self_eq_true c)
      | succ k2 =>
        rw [List.get?_cons_succ]
        exact ih hlt k2

theorem lastIdxOf_some {c : Char} {s : List Char} {j : Nat}
    (h : lastIdxOf c s = some j) :
    s.get? j = some c ∧ ∀ k, j < k → s.get? k ≠ some c := by
  induction s generalizing j with
  | nil => rw [lastIdxOf] at h; cases h
  | cons d t ih =>
    rw [lastIdxOf] at h
    cases hlt : lastIdxOf c t with
    | some k0 =>
      rw [hlt] at h
      simp only [Option.some.injEq] at h
      subst h
      obtain ⟨h1, h2⟩ := ih hlt
      refine ⟨by simpa using h1, ?_⟩
      intro k hk
      cases k with
      | zero => omega
      | succ k2 =>
        rw [List.get?_cons_succ]
        exact h2 k2 (by omega)
    | none =>
      rw [hlt] at h
      split_ifs at h with hdc
      simp only [Option.some.injEq] at h
      subst h
      refine ⟨by simp [eq_of_beq hdc], ?_⟩
      intro k hk
      cases k with
      | zero => omega
      | succ k2 =>
        rw [List.get?_cons_succ]
        exact lastIdxOf_none hlt k2

theorem fencedJson_some_fencePresent {s inner : List Char}
    (h : fencedJson s = some inner) : FencePresent s := by
  rw [fencedJson] at h
  split at h
  · cases h
  · rename_i i heq1
    split at h
    · cases h
    · rename_i j heq2
      exact ⟨i, j, (findSub_some heq1).1, (findSub_some heq2).1⟩

theorem braceSpan_some_bracePair {s span : List Char}
    (h : braceSpan s = some span) : BracePair s := by
  rw [braceSpan] at h
  split at h
  · rename_i i j heq1 heq2
    split_ifs at h with hij
    exact ⟨i, j, hij, (firstIdxOf_some heq1).1, (lastIdxOf_some heq2).1⟩
  · rename_i hcatch
    cases h

theorem insertByCreated_perm (r : ScanResult) (l : List ScanResult) :
    List.Perm (insertByCreated r l) (r :: l) := by
  induction l with
  | nil => exact List.Perm.refl _
  | cons x t ih =>
    rw [insertByCreated]
    split_ifs with hlt
    · exact List.Perm.refl _
    · exact (List.Perm.cons x ih).trans (List.Perm.swap r x t)

theorem insertByCreated_mem {a r : ScanResult} {l : List ScanResult} :
    a ∈ insertByCreated r l ↔ a = r ∨ a ∈ l := by
  rw [(insertByCreated_perm r l).mem_iff]
  simp

theorem insertByCreated_pairwise {r : ScanResult} {l : List ScanResult}
    (h : l.Pairwise (fun a b => b.created_at ≤ a.created_at)) :
    (insertByCreated r l).Pairwise (fun a b => b.created_at ≤ a.created_at) := by
  induction l with
  | nil => simp [insertByCreated]
  | cons x t ih =>
    rw [List.pairwise_cons] at h
    obtain ⟨hx, ht⟩ := h
    rw [insertByCreated]
    split_ifs with hlt
    · refine List.Pairwise.cons ?_ (List.Pairwise.cons hx ht)
      intro b hb
      rcases List.mem_cons.mp hb with hbx | hbt
      · subst hbx; omega
      · have := hx b hbt; omega
    · refine List.Pairwise.cons ?_ (ih ht)
      intro b hb
      rcases insertByCreated_mem.mp hb with hbr | hbt
      · subst hbr; omega
      · exact hx b hbt

theorem sortByCreatedDesc_perm (l : List ScanResult) :
    List.Perm (sortByCreatedDesc l) l := by
  induction l with
  | nil => exact List.Perm.refl _
  | cons x t ih =>
    exact (insertByCreated_perm x (sortByCreatedDesc t)).trans (List.Perm.cons x ih)

theorem sortByCreatedDesc_pairwise (l : List ScanResult) :
    (sortByCreatedDesc l).Pairwise (fun a b => b.created_at ≤ a.created_at) := by
  induction l with
  | nil => simp [sortByCreatedDesc]
  | cons x t ih => exact insertByCreated_pairwise ih

theorem history_get (db : DB) (u : List Char) (limit i : Nat)
    (h : i < ((get_scan_history db u limit).scans).length) :
    ∃ r, r ∈ db.rows ∧ r.user_id = u ∧
      (get_scan_history db u limit).scans.get ⟨i, h⟩ = summaryOf r := by
  have hm : (get_scan_history db u limit).scans.get ⟨i, h⟩ ∈
      ((sortByCreatedDesc (db.rows.filter (fun r => r.user_id == u))).take
        limit).map summaryOf := List.get_mem _ _ h
  obtain ⟨r, hr, hsum⟩ := List.mem_map.mp hm
  have hr2 : r ∈ sortByCreatedDesc (db.rows.filter (fun r => r.user_id == u)) :=
    List.take_subset _ _ hr
  have hr3 : r ∈ db.rows.filter (fun r => r.user_id == u) :=
    (sortByCreatedDesc_perm _).mem_iff.mp hr2
  obtain ⟨hr4, hr5⟩ := List.mem_filter.mp hr3
  exact ⟨r, hr4, eq_of_beq hr5, hsum.symm⟩

theorem scan_ad_parse_failure (db : DB) (now : Nat) (ad u : List Char)
    (img : Option (List Char)) (raw : List Char)
    (h : json_loads (extractCandidate raw) = none) :
    scan_ad db now ad u img (.ok raw) =
      ({ nextId := db.nextId + 1,
         rows := db.rows ++ [degradedRow db.nextId now ad u img
           (transportIssue decodeErrText)] },
        .ok (degradedResponse db.nextId (transportIssue decodeErrText))) := by
  have ha : analyze_with_ai (.ok raw) =
      fallbackResult (transportIssue decodeErrText) := by
    simp only [analyze_with_ai, h]
  simp only [scan_ad, ha]
  rfl

theorem scan_ad_ok_inversion (db : DB) (now : Nat) (ad u : List Char)
    (img : Option (List Char)) (reply : Reply) (db' : DB) (resp : ScanResponse)
    (h : scan_ad db now ad u img reply = (db', .ok resp)) :
    dictGet (analyze_with_ai reply) (cs "compliance_score") =
      .ok resp.compliance_score ∧
    dictGet (analyze_with_ai reply) (cs "risk_level") = .ok resp.risk_level ∧
    dictGet (analyze_with_ai reply) (cs "violations") = .ok resp.violations ∧
    dictGet (analyze_with_ai reply) (cs "recommendations") =
      .ok resp.recommendations ∧
    dictGet (analyze_with_ai reply) (cs "summary") = .ok resp.summary ∧
    resp.scan_id = db.nextId ∧
    db' = { nextId := db.nextId + 1,
            rows := db.rows ++
              [{ id := db.nextId, user_id := u, ad_copy := ad,
                 image_name := img, compliance_score := resp.compliance_score,
                 risk_level := resp.risk_level,
                 violations := strPy resp.violations,
                 recommendations := strPy resp.recommendations,
                 created_at := now }] } := by
  simp only [scan_ad] at h
  split at h
  · simp at h
  · rename_i score hscore
    split at h
    · simp at h
    · rename_i risk hrisk
      split at h
      · simp at h
      · rename_i viol hviol
        split at h
        · simp at h
        · rename_i recs hrecs
          split at h
          · simp at h
          · rename_i summ hsumm
            simp only [Prod.mk.injEq, Except.ok.injEq] at h
            obtain ⟨hdb, hresp⟩ := h
            subst hdb
            subst hresp
            exact ⟨hscore, hrisk, hviol, hrecs, hsumm, rfl, rfl⟩

/-- C1 counterexample: the classifier reply `"-LB--RB-"` is valid JSON, so
`json.loads` succeeds on the candidate, but the resulting empty object lacks
the `ClassificationResult` field names. The pipeline does not fall back to the
degraded result: `scan_ad` raises `KeyError('compliance_score')`, which
propagates to the caller of `POST /scan`, and nothing is persisted. -/
theorem C1_counterexample :
    scan_ad db0 0 (cs "ad") (cs "anonymous") none (.ok rawEmptyObj) =
      (db0, .error (.keyError (cs "compliance_score"))) := rfl

/-- C1 (amended): extraction falls back to the degraded result exactly when
the candidate fails to parse as JSON — in that case `POST /scan` completes,
returns the degraded response, and persists the degraded row. A candidate
that parses successfully is passed through without checking the
`ClassificationResult` field names, so a missing field raises an error that
propagates to the caller (see the counterexample). -/
theorem C1_degrade_on_parse_failure (db : DB) (now : Nat) (ad u : List Char)
    (img : Option (List Char)) (raw : List Char)
    (h : json_loads (extractCandidate raw) = none) :
    scan_ad db now ad u img (.ok raw) =
      ({ nextId := db.nextId + 1,
         rows := db.rows ++ [degradedRow db.nextId now ad u img
           (transportIssue decodeErrText)] },
        .ok (degradedResponse db.nextId (transportIssue decodeErrText))) :=
  scan_ad_parse_failure db now ad u img raw h

/-- C1 witness: a reply with no JSON anywhere takes the degraded path. -/
theorem C1_degrade_witness :
    json_loads (extractCandidate (cs "no json here")) = none ∧
    scan_ad db0 7 (cs "ad") (cs "u") none (.ok (cs "no json here")) =
      ({ nextId := 2, rows := [degradedRow 1 7 (cs "ad") (cs "u") none
         (transportIssue decodeErrText)] },
        .ok (degradedResponse 1 (transportIssue decodeErrText))) :=
  ⟨rfl, C1_degrade_on_parse_failure db0 7 (cs "ad") (cs "u") none
    (cs "no json here") rfl⟩

/-- C2 counterexample: a well-typed reply with `compliance_score = 150` and
`risk_level = "SEVERE"` is passed through unchanged, so the `POST /scan`
response violates both the score range and the risk-level enumeration. -/
theorem C2_counterexample :
    (scan_ad db0 3 (cs "ad") (cs "u") none (.ok rawBadScore)).2 =
      .ok { scan_id := 1, compliance_score := .int 150,
            risk_level := .str (cs "SEVERE"), violations := .list [],
            recommendations := .list [], summary := .str (cs "bad") } ∧
    ¬ scoreInRange (.int 150) ∧ ¬ riskLevelOk (.str (cs "SEVERE")) := by
  refine ⟨by set_option maxRecDepth 16384 in rfl, ?_, ?_⟩
  · rintro ⟨n, hn, h0, h100⟩
    cases hn
    omega
  · rintro (h | h | h | h) <;>
      (injection h with h; exact absurd h (by decide))

/-- C2 (amended): the bounds `complianceScore ∈ [0,100]` and
`riskLevel ∈ -LB-LOW, MEDIUM, HIGH, CRITICAL-RB-` hold on the degraded path —
both on a classifier transport error and on an unparseable reply, where the
response carries score 50 and level MEDIUM — but on a successful parse the
score and risk level of the classifier's reply are passed through unchanged
(no re-validation), so the bounds hold only if the reply already satisfies
them (see the counterexample). -/
theorem C2_bounds_on_degraded_path :
    scoreInRange (.int 50) ∧ riskLevelOk (.str (cs "MEDIUM")) ∧
    (∀ (db : DB) (now : Nat) (ad u : List Char) (img : Option (List Char))
      (e : List Char),
      (scan_ad db now ad u img (.error e)).2 =
        .ok (degradedResponse db.nextId (transportIssue e))) ∧
    (∀ (db : DB) (now : Nat) (ad u : List Char) (img : Option (List Char))
      (raw : List Char), json_loads (extractCandidate raw) = none →
      (scan_ad db now ad u img (.ok raw)).2 =
        .ok (degradedResponse db.nextId (transportIssue decodeErrText))) ∧
    (∀ (db : DB) (now : Nat) (ad u : List Char) (img : Option (List Char))
      (raw : List Char) (d : PyVal) (db' : DB) (resp : ScanResponse),
      json_loads (extractCandidate raw) = some d →
      scan_ad db now ad u img (.ok raw) = (db', .ok resp) →
      dictGet d (cs "compliance_score") = .ok resp.compliance_score ∧
      dictGet d (cs "risk_level") = .ok resp.risk_level) := by
  refine ⟨⟨50, rfl, by omega, by omega⟩, Or.inr (Or.inl rfl), ?_, ?_, ?_⟩
  · intro db now ad u img e
    rfl
  · intro db now ad u img raw h
    rw [scan_ad_parse_failure db now ad u img raw h]
  · intro db now ad u img raw d db' resp hj hrun
    have ha : analyze_with_ai (.ok raw) = d := by
      simp only [analyze_with_ai, hj]
    obtain ⟨h1, h2, _⟩ := scan_ad_ok_inversion db now ad u img _ db' resp hrun
    rw [ha] at h1 h2
    exact ⟨h1, h2⟩

/-- C2 witness: an unparseable reply yields the in-range degraded response. -/
theorem C2_bounds_witness :
    json_loads (extractCandidate (cs "garbage")) = none ∧
    (scan_ad db0 2 (cs "ad") (cs "u") none (.ok (cs "garbage"))).2 =
      .ok (degradedResponse 1 (transportIssue decodeErrText)) :=
  ⟨rfl, C2_bounds_on_degraded_path.2.2.2.1 db0 2 (cs "ad") (cs "u") none
    (cs "garbage") rfl⟩

/-- C4: whenever the remote classifier call fails with any error text,
`POST /scan` still completes and persists a row, and the returned result is
exactly the degraded shape: score 50, risk level MEDIUM, exactly one violation
with category "Analysis Error", severity MEDIUM, empty text snippet and
policy reference "System Error", the fixed recommendation list, and the fixed
error summary. -/
theorem C4_remote_failure_degrades (db : DB) (now : Nat) (ad u : List Char)
    (img : Option (List Char)) (e : List Char) :
    scan_ad db now ad u img (.error e) =
      ({ nextId := db.nextId + 1,
         rows := db.rows ++ [degradedRow db.nextId now ad u img
           (transportIssue e)] },
        .ok { scan_id := db.nextId, compliance_score := .int 50,
              risk_level := .str (cs "MEDIUM"),
              violations := .list
                [ .dict
                    [ (cs "category", .str (cs "Analysis Error")),
                      (cs "severity", .str (cs "MEDIUM")),
                      (cs "issue", .str (transportIssue e)),
                      (cs "text_snippet", .str []),
                      (cs "policy_reference", .str (cs "System Error")) ] ],
              recommendations :=
                .list [.str (cs "Please try again or contact support")],
              summary := .str
                (cs "Analysis could not be completed due to technical error") }) :=
  rfl

/-- C6 counterexample: a request with `ad_copy` present but EMPTY is not
rejected: the pipeline runs (here on the degraded path) and a row is
persisted, refuting the claim that empty ad copy is rejected with a 4xx
before the pipeline. -/
theorem C6_counterexample :
    (scan_endpoint db0 5 (some []) (cs "u") none (.error (cs "boom"))).2 =
      .ok (degradedResponse 1 (transportIssue (cs "boom"))) ∧
    (scan_endpoint db0 5 (some []) (cs "u") none
      (.error (cs "boom"))).1.rows.length = 1 :=
  ⟨rfl, rfl⟩

/-- C6 (amended): a request with the `ad_copy` field missing is rejected with
a 422 by FastAPI's required-field validation before the handler body runs, and
nothing is persisted; an empty-string `ad_copy`, however, passes validation
and is processed and persisted like any other value (see the counterexample). -/
theorem C6_missing_ad_copy_rejected (db : DB) (now : Nat) (u : List Char)
    (img : Option (List Char)) (reply : Reply) :
    scan_endpoint db now none u img reply = (db, .error .http422) := rfl

/-- C3: round-trip of the stored sub-objects. For every successful run of
`POST /scan` on a well-formed store whose parsed `violations` and
`recommendations` are lists (the `ClassificationResult` shape), `GET
/scan/:id` on the fresh id deserializes the stored texts back to values
structurally equal to the ones that were persisted. -/
theorem C3_round_trip (db : DB) (now : Nat) (ad u : List Char)
    (img : Option (List Char)) (raw : List Char) (db' : DB)
    (resp : ScanResponse) (vs rs : List PyVal)
    (hwf : DBWF db)
    (hrun : scan_ad db now ad u img (.ok raw) = (db', .ok resp))
    (hv : resp.violations = .list vs) (hr : resp.recommendations = .list rs) :
    get_scan_details db' resp.scan_id =
      .ok { scan_id := resp.scan_id, ad_copy := ad,
            compliance_score := resp.compliance_score,
            risk_level := resp.risk_level, violations := .list vs,
            recommendations := .list rs, created_at := now } := by
  obtain ⟨h1, h2, h3, h4, h5, hid, hdb⟩ :=
    scan_ad_ok_inversion db now ad u img (.ok raw) db' resp hrun
  subst hdb
  rw [hid]
  have hnone : db.rows.find? (fun r => r.id == db.nextId) = none := by
    rw [List.find?_eq_none]
    intro r hr2 hbeq
    have := hwf r hr2
    exact absurd (eq_of_beq hbeq) (by omega)
  have hsv : strPy resp.violations = reprPy (PyVal.list vs) := by rw [hv]; rfl
  have hsr : strPy resp.recommendations = reprPy (PyVal.list rs) := by
    rw [hr]; rfl
  simp only [get_scan_details, List.find?_append, hnone, Option.none_or, hsv,
    hsr, List.find?, beq_self_eq_true, literalEval_reprPy]

set_option maxRecDepth 262144 in
/-- C3 witness: a complete fenced classifier reply is persisted and read back
with structurally equal violations and recommendations. -/
theorem C3_round_trip_witness :
    get_scan_details (scan_ad db0 11 (cs "ad") (cs "u1") none (.ok rawGood)).1
        1 =
      .ok { scan_id := 1, ad_copy := cs "ad", compliance_score := .int 90,
            risk_level := .str (cs "LOW"), violations := .list [vGood],
            recommendations := .list [.str (cs "soften the claim")],
            created_at := 11 } :=
  C3_round_trip db0 11 (cs "ad") (cs "u1") none rawGood
    (scan_ad db0 11 (cs "ad") (cs "u1") none (.ok rawGood)).1
    { scan_id := 1, compliance_score := .int 90, risk_level := .str (cs "LOW"),
      violations := .list [vGood],
      recommendations := .list [.str (cs "soften the claim")],
      summary := .str (cs "mostly fine") }
    [vGood] [.str (cs "soften the claim")]
    (fun r hr => absurd hr (List.not_mem_nil r)) rfl rfl rfl

/-- C5: candidate selection follows the spec's order. If a fenced block
explicitly marked as JSON is present (first opening fence, first closing
fence after it), its inner content is the candidate; otherwise, if the text
contains a `-LB-` followed later by a `-RB-`, the candidate is the greedy span
from the first `-LB-` to the last `-RB-`; otherwise the raw text verbatim is
the candidate. -/
theorem C5_candidate_selection (s : List Char) :
    (∀ i j, OccursAt fenceOpen s i → (∀ k, k < i → ¬ OccursAt fenceOpen s k) →
      OccursAt fenceClose (s.drop (i + fenceOpen.length)) j →
      (∀ k, k < j → ¬ OccursAt fenceClose (s.drop (i + fenceOpen.length)) k) →
      extractCandidate s = (s.drop (i + fenceOpen.length)).take j) ∧
    (¬ FencePresent s →
      ∀ i j, i < j → s.get? i = some lb → (∀ k, k < i → s.get? k ≠ some lb) →
      s.get? j = some rb → (∀ k, j < k → s.get? k ≠ some rb) →
      extractCandidate s = (s.drop i).take (j + 1 - i)) ∧
    (¬ FencePresent s → ¬ BracePair s → extractCandidate s = s) := by
  refine ⟨?_, ?_, ?_⟩
  · intro i j hoi hmini hoj hminj
    have h1 : findSub fenceOpen s = some i := by
      cases hfs : findSub fenceOpen s with
      | none => exact absurd hoi (findSub_none hfs i)
      | some i' =>
        obtain ⟨ha, hb⟩ := findSub_some hfs
        have hii : i' = i := by
          rcases Nat.lt_trichotomy i' i with hlt | heq | hgt
          · exact absurd ha (hmini i' hlt)
          · exact heq
          · exact absurd hoi (hb i hgt)
        rw [hii]
    have h2 : findSub fenceClose (s.drop (i + fenceOpen.length)) = some j := by
      cases hfs : findSub fenceClose (s.drop (i + fenceOpen.length)) with
      | none => exact absurd hoj (findSub_none hfs j)
      | some j' =>
        obtain ⟨ha, hb⟩ := findSub_some hfs
        have hjj : j' = j := by
          rcases Nat.lt_trichotomy j' j with hlt | heq | hgt
          · exact absurd ha (hminj j' hlt)
          · exact heq
          · exact absurd hoj (hb j hgt)
        rw [hjj]
    simp only [extractCandidate, fencedJson, h1, h2]
  · intro hnf i j hij hgi hmini hgj hmaxj
    have hfj : fencedJson s = none := by
      cases hfj : fencedJson s with
      | none => rfl
      | some inner => exact absurd (fencedJson_some_fencePresent hfj) hnf
    have h1 : firstIdxOf lb s = some i := by
      cases hfs : firstIdxOf lb s with
      | none => exact absurd hgi (firstIdxOf_none hfs i)
      | some i' =>
        obtain ⟨ha, hb⟩ := firstIdxOf_some hfs
        have hii : i' = i := by
          rcases Nat.lt_trichotomy i' i with hlt | heq | hgt
          · exact absurd ha (hmini i' hlt)
          · exact heq
          · exact absurd hgi (hb i hgt)
        rw [hii]
    have h2 : lastIdxOf rb s = some j := by
      cases hfs : lastIdxOf rb s with
      | none => exact absurd hgj (lastIdxOf_none hfs j)
      | some j' =>
        obtain ⟨ha, hb⟩ := lastIdxOf_some hfs
        have hjj : j' = j := by
          rcases Nat.lt_trichotomy j' j with hlt | heq | hgt
          · exact absurd hgj (hb j hlt)
          · exact heq
          · exact absurd ha (hmaxj j' hgt)
        rw [hjj]
    simp only [extractCandidate, hfj, braceSpan, h1, h2, if_pos hij]
  · intro hnf hnb
    have hfj : fencedJson s = none := by
      cases hfj : fencedJson s with
      | none => rfl
      | some inner => exact absurd (fencedJson_some_fencePresent hfj) hnf
    have hbs : braceSpan s = none := by
      cases hbs : braceSpan s with
      | none => rfl
      | some sp => exact absurd (braceSpan_some_bracePair hbs) hnb
    simp only [extractCandidate, hfj, hbs]

/-- C5 witness: on a text with a fenced JSON block (whose body even contains
a brace), the candidate is the inner content of the first block. -/
theorem C5_candidate_selection_witness :
    OccursAt fenceOpen sFence 6 ∧
    extractCandidate sFence = cs "hello \x7bworld" :=
  ⟨by show fenceOpen <+: sFence.drop 6; decide,
    (C5_candidate_selection sFence).1 6 12
      (by show fenceOpen <+: sFence.drop 6; decide)
      (by show ∀ k, k < 6 → ¬ fenceOpen <+: sFence.drop k; decide)
      (by show fenceClose <+: (sFence.drop (6 + fenceOpen.length)).drop 12
          decide)
      (by show ∀ k, k < 12 →
            ¬ fenceClose <+: (sFence.drop (6 + fenceOpen.length)).drop k
          decide)⟩

/-- C7: the history listing returns at most `limit` entries (default 10), each
the summary of a stored row of the requested user, ordered by `created_at`
descending. -/
theorem C7_history_bounded_sorted (db : DB) (u : List Char) (limit i : Nat)
    (h : i < ((get_scan_history db u limit).scans).length) :
    (get_scan_history db u limit).scans.length ≤ limit ∧
    ((get_scan_history db u limit).scans.map
      (fun it => it.created_at)).Pairwise (fun a b => b ≤ a) ∧
    ∃ r, r ∈ db.rows ∧ r.user_id = u ∧
      (get_scan_history db u limit).scans.get ⟨i, h⟩ = summaryOf r := by
  refine ⟨?_, ?_, history_get db u limit i h⟩
  · show (((sortByCreatedDesc (db.rows.filter (fun r => r.user_id == u))).take
      limit).map summaryOf).length ≤ limit
    rw [List.length_map, List.length_take]
    omega
  · show ((((sortByCreatedDesc (db.rows.filter (fun r => r.user_id == u))).take
      limit).map summaryOf).map (fun it => it.created_at)).Pairwise
      (fun a b => b ≤ a)
    rw [List.map_map, List.pairwise_map]
    exact (sortByCreatedDesc_pairwise _).sublist (List.take_sublist _ _)

/-- C7 witness: for a store with two `u1` rows and one `u2` row, the page is
within the limit, sorted descending, and its first entry summarizes a stored
`u1` row. -/
theorem C7_history_witness :
    (get_scan_history db1 (cs "u1") 10).scans.length ≤ 10 ∧
    ((get_scan_history db1 (cs "u1") 10).scans.map
      (fun it => it.created_at)).Pairwise (fun a b => b ≤ a) ∧
    ∃ r, r ∈ db1.rows ∧ r.user_id = cs "u1" ∧
      (get_scan_history db1 (cs "u1") 10).scans.get ⟨0, by decide⟩ =
        summaryOf r :=
  C7_history_bounded_sorted db1 (cs "u1") 10 0 (by decide)

/-- C8: every history entry's `ad_copy_preview` is computed by the preview
formula from a stored row's full `ad_copy`: the text verbatim when its length
is at most 100 characters, else exactly the first 100 characters with the
`"..."` marker appended (and the marker is appended only in that case). -/
theorem C8_preview_formula (db : DB) (u : List Char) (limit i : Nat)
    (h : i < ((get_scan_history db u limit).scans).length) :
    ∃ r, r ∈ db.rows ∧
      ((get_scan_history db u limit).scans.get ⟨i, h⟩).ad_copy_preview =
        previewOf r.ad_copy ∧
      (r.ad_copy.length ≤ 100 → previewOf r.ad_copy = r.ad_copy) ∧
      (100 < r.ad_copy.length →
        previewOf r.ad_copy = r.ad_copy.take 100 ++ cs "...") := by
  obtain ⟨r, hr, hu, hs⟩ := history_get db u limit i h
  refine ⟨r, hr, by rw [hs]; rfl, ?_, ?_⟩
  · intro hle
    rw [previewOf, if_neg (by omega)]
  · intro hgt
    rw [previewOf, if_pos hgt]

/-- C8 witness: the newest `u1` row has a 110-character ad copy, so its
preview is the truncated form. -/
theorem C8_preview_witness :
    ∃ r, r ∈ db1.rows ∧
      ((get_scan_history db1 (cs "u1") 10).scans.get
        ⟨0, by decide⟩).ad_copy_preview = previewOf r.ad_copy ∧
      (r.ad_copy.length ≤ 100 → previewOf r.ad_copy = r.ad_copy) ∧
      (100 < r.ad_copy.length →
        previewOf r.ad_copy = r.ad_copy.take 100 ++ cs "...") :=
  C8_preview_formula db1 (cs "u1") 10 0 (by decide)

/-- C9: `GET /scan/:id` fails with an explicit 404 when no row has the id —
never a degraded result — and returns the stored row (with its serialized
violation and recommendation lists deserialized) when one does. -/
theorem C9_not_found_and_found (db : DB) (i : Nat) :
    (db.rows.find? (fun r0 => r0.id == i) = none →
      get_scan_details db i = .error .http404) ∧
    (∀ r vs rs, db.rows.find? (fun r0 => r0.id == i) = some r →
      r.violations = reprPy (.list vs) →
      r.recommendations = reprPy (.list rs) →
      get_scan_details db i =
        .ok { scan_id := r.id, ad_copy := r.ad_copy,
              compliance_score := r.compliance_score,
              risk_level := r.risk_level, violations := .list vs,
              recommendations := .list rs, created_at := r.created_at }) := by
  constructor
  · intro hn
    simp only [get_scan_details, hn]
  · intro r vs rs hf hv hr
    simp only [get_scan_details, hf, hv, hr, literalEval_reprPy]

/-- C9 witness: id 1 resolves to the stored row, id handling is by lookup. -/
theorem C9_details_witness :
    db1.rows.find? (fun r0 => r0.id == 1) = some rowA ∧
    get_scan_details db1 1 =
      .ok { scan_id := 1, ad_copy := cs "shortad", compliance_score := .int 90,
            risk_level := .str (cs "LOW"), violations := .list [],
            recommendations := .list [], created_at := 5 } :=
  ⟨rfl, (C9_not_found_and_found db1 1).2 rowA [] [] rfl rfl rfl⟩

/-- C10 (implicit): `total_scans` in the history response is the length of the
returned limit-capped page, not the user's total row count; whenever the user
has more than `limit` rows, `total_scans` equals `limit`. -/
theorem C10_total_scans_is_page_length (db : DB) (u : List Char)
    (limit : Nat) :
    (get_scan_history db u limit).total_scans =
      (get_scan_history db u limit).scans.length ∧
    (limit < (db.rows.filter (fun r => r.user_id == u)).length →
      (get_scan_history db u limit).total_scans = limit) := by
  constructor
  · rfl
  · intro hlt
    show (((sortByCreatedDesc (db.rows.filter (fun r => r.user_id == u))).take
      limit).map summaryOf).length = limit
    rw [List.length_map, List.length_take,
      (sortByCreatedDesc_perm _).length_eq]
    omega

/-- C10 witness: user `u1` has two rows, `limit = 1` reports `total_scans = 1`. -/
theorem C10_total_scans_witness :
    1 < (db1.rows.filter (fun r => r.user_id == cs "u1")).length ∧
    (get_scan_history db1 (cs "u1") 1).total_scans = 1 :=
  ⟨by decide, (C10_total_scans_is_page_length db1 (cs "u1") 1).2 (by decide)⟩

end MetaScanner
